import Mathlib

/-!
Verification development for the hotpdf subprocess ingestion layer
(`src/hotpdf/processor.py`).  The Python source is shallowly embedded:
pure text transformations become functions on `List Char`, byte streams
become `List Nat`, the process-spawning and file side effects become
explicit state passing, and Python exceptions become `Except` values.
-/

namespace HotPdf

/-- Characters are compared through their scalar values; a few small
predicates used throughout the embedding. -/
def isAsciiAlpha (c : Char) : Bool :=
  (('a' ≤ c && c ≤ 'z') || ('A' ≤ c && c ≤ 'Z'))

def isDecDigit (c : Char) : Bool := ('0' ≤ c && c ≤ '9')

def isHexDigitCh (c : Char) : Bool :=
  isDecDigit c || ('a' ≤ c && c ≤ 'f') || ('A' ≤ c && c ≤ 'F')

/-- Containment of one character sequence inside another (Python `in` on
`str`), via prefix checks at every suffix. -/
def occursIn (needle : List Char) (hay : List Char) : Bool :=
  match hay with
  | [] => needle.isEmpty
  | _ :: t => needle.isPrefixOf hay || occursIn needle t

/-- Python `" ".join(args)` on a list of character-lists. -/
def joinSpace : List (List Char) → List Char
  | [] => []
  | [a] => a
  | a :: rest => a ++ ' ' :: joinSpace rest

/-! ## Result classification (`Result`, `__validate_gs_output`) -/

/-- Enumerated outcome flag of one Ghostscript invocation
(`class Result(Enum)` in the source). -/
inductive Result where
  | LOADED
  | LOCKED
  | WRONG_PASSWORD
  | UNKNOWN_ERROR
deriving DecidableEq, Repr

/-- Captured process outcome: exit code plus raw stdout/stderr byte
streams (`subprocess.CompletedProcess[bytes]`). -/
structure GsOutput where
  returncode : Int
  stdout : List Nat
  stderr : List Nat
deriving DecidableEq, Repr

/-- Decoder state: either between characters, or inside a multi-byte
sequence with the value accumulated so far, the number of continuation
bytes still expected, and the total sequence length (for the final
range checks). -/
inductive Utf8State where
  | clean
  | pend (val : Nat) (need : Nat) (kind : Nat)
deriving DecidableEq, Repr

/-- Classification of a byte in leading position: the characters it
emits immediately and the new decoder state. -/
def utf8Classify (b : Nat) : List Char × Utf8State :=
  if b < 0x80 then ([Char.ofNat b], Utf8State.clean)
  else if b < 0xC2 then ([], Utf8State.clean)
  else if b < 0xE0 then ([], Utf8State.pend (b - 0xC0) 1 2)
  else if b < 0xF0 then ([], Utf8State.pend (b - 0xE0) 2 3)
  else if b < 0xF5 then ([], Utf8State.pend (b - 0xF0) 3 4)
  else ([], Utf8State.clean)

/-- Final range check of a completed sequence: rejects overlong forms,
surrogates and values beyond U+10FFFF. -/
def utf8ValidFinal (kind v : Nat) : Bool :=
  if kind = 2 then true
  else if kind = 3 then 0x800 ≤ v && !(0xD800 ≤ v && v ≤ 0xDFFF)
  else 0x10000 ≤ v && v ≤ 0x10FFFF

/-- Model of Python `bytes.decode(errors="ignore")`: UTF-8 decoding
where every undecodable byte or sequence is dropped rather than
raising.  A non-continuation byte aborts a pending sequence (which is
dropped) and is reconsidered as a leading byte, matching the decoder's
skip-and-resume behaviour. -/
def decodeGo : Utf8State → List Nat → List Char
  | _, [] => []
  | Utf8State.clean, b :: t =>
    (utf8Classify b).1 ++ decodeGo (utf8Classify b).2 t
  | Utf8State.pend v need kind, b :: t =>
    if 0x80 ≤ b && b < 0xC0 then
      let v2 := v * 0x40 + (b - 0x80)
      if need = 1 then
        (if utf8ValidFinal kind v2 then [Char.ofNat v2] else []) ++
          decodeGo Utf8State.clean t
      else decodeGo (Utf8State.pend v2 (need - 1) kind) t
    else (utf8Classify b).1 ++ decodeGo (utf8Classify b).2 t

def decodeIgnore (l : List Nat) : List Char := decodeGo Utf8State.clean l

/-- Combined permissively decoded output, exactly as the source computes
`err = output.stderr.decode(errors="ignore") + output.stdout.decode(errors="ignore")`. -/
def gsErr (o : GsOutput) : List Char :=
  decodeIgnore o.stderr ++ decodeIgnore o.stdout

def lockedMarker : List Char := ("This file requires a password for access").toList
def wrongPwMarker : List Char := ("Password did not work").toList
def unrecovMarker : List Char := ("Unrecoverable error").toList

/-- Embedding of `__validate_gs_output`: substring tests on the combined
decoded output, in source order, with the non-zero-exit fallback. -/
def validate_gs_output (o : GsOutput) : Result :=
  let err := gsErr o
  if occursIn lockedMarker err then Result.LOCKED
  else if occursIn wrongPwMarker err then Result.WRONG_PASSWORD
  else if occursIn unrecovMarker err || o.returncode ≠ 0 then Result.UNKNOWN_ERROR
  else Result.LOADED

/-! ## Failure surfacing (`__handle_gs_result`) -/

/-- Python exceptions raised by the pipeline, carrying their messages. -/
inductive GsError where
  | permissionError (msg : List Char)
  | runtimeError (msg : List Char)
  | parseError
deriving DecidableEq, Repr

def wrongPasswordMsg : List Char := ("Wrong password").toList
def lockedMsg : List Char := ("File is encrypted. You need a password").toList
def unknownErrorMsg : List Char := ("Unknown error in processing").toList

/-- Embedding of `__handle_gs_result`: `return` on `LOADED`, a raised
exception (modelled as `Except.error`) otherwise. -/
def handle_gs_result : Result → Except GsError Unit
  | Result.LOADED => Except.ok ()
  | Result.WRONG_PASSWORD => Except.error (GsError.permissionError wrongPasswordMsg)
  | Result.LOCKED => Except.error (GsError.permissionError lockedMsg)
  | Result.UNKNOWN_ERROR => Except.error (GsError.runtimeError unknownErrorMsg)

/-! ## Structure sanitizer (`__clean_xml`)

The seven-step repair pipeline.  File I/O (`open`, `seek`, `truncate`)
is modelled as a pure text-to-text function; the in-place rewrite is
carried by the pipeline state model further below. -/

/-- Scanner state for step 1's regex: outside a candidate, after `&`,
after `&#`, or after `&#x` with the digits read so far (reversed). -/
inductive NcrState where
  | s0
  | s1
  | s2
  | s3 (ds : List Char)
deriving DecidableEq, Repr

/-- Characters of a pending partial match, emitted verbatim when the
input ends before the match completes. -/
def ncrFlush : NcrState → List Char
  | NcrState.s0 => []
  | NcrState.s1 => ['&']
  | NcrState.s2 => ['&', '#']
  | NcrState.s3 ds => '&' :: '#' :: 'x' :: ds.reverse

/-- Step 1, embedding `re.sub(r"(&#x[0-9]+;)", "", raw_xml)` as a
left-to-right scanner: every leftmost non-overlapping occurrence of
`&#x`, one or more DECIMAL digits, `;` is removed (the Python character
class is `[0-9]`, not a hex-digit class).  A candidate that fails is
emitted verbatim and scanning resumes at the failing character — which
reproduces the regex engine's advance-by-one, since no match can begin
inside the prefix `&#x` or the digit run. -/
def ncrGo : NcrState → List Char → List Char
  | st, [] => ncrFlush st
  | NcrState.s0, c :: t =>
    if c = '&' then ncrGo NcrState.s1 t else c :: ncrGo NcrState.s0 t
  | NcrState.s1, c :: t =>
    if c = '#' then ncrGo NcrState.s2 t
    else if c = '&' then '&' :: ncrGo NcrState.s1 t
    else '&' :: c :: ncrGo NcrState.s0 t
  | NcrState.s2, c :: t =>
    if c = 'x' then ncrGo (NcrState.s3 []) t
    else if c = '&' then '&' :: '#' :: ncrGo NcrState.s1 t
    else '&' :: '#' :: c :: ncrGo NcrState.s0 t
  | NcrState.s3 ds, c :: t =>
    if isDecDigit c then ncrGo (NcrState.s3 (c :: ds)) t
    else if c = ';' && !ds.isEmpty then ncrGo NcrState.s0 t
    else if c = '&' then ('&' :: '#' :: 'x' :: ds.reverse) ++ ncrGo NcrState.s1 t
    else ('&' :: '#' :: 'x' :: ds.reverse) ++ c :: ncrGo NcrState.s0 t

def sub_hex_ncr (s : List Char) : List Char := ncrGo NcrState.s0 s

/-- Step 2, embedding `re.sub(r"(&quot;)", "'", raw_xml)`: a leftmost
occurrence of the six characters `&quot;` becomes an apostrophe; any
other character is copied. -/
def replace_quot : List Char → List Char
  | '&' :: 'q' :: 'u' :: 'o' :: 't' :: ';' :: rest => '\'' :: replace_quot rest
  | c :: rest => c :: replace_quot rest
  | [] => []

/-- Characters allowed in the named-reference group of Python's
`html.unescape` regex: `[^\t\n\f <&#;]`. -/
def ncCharsetOk (c : Char) : Bool :=
  !(c = '\t' || c = '\n' || c = '\x0c' || c = ' ' || c = '<' || c = '&' ||
    c = '#' || c = ';')

def hexDigitVal (c : Char) : Nat :=
  if isDecDigit c then c.toNat - '0'.toNat
  else if 'a' ≤ c && c ≤ 'f' then c.toNat - 'a'.toNat + 10
  else c.toNat - 'A'.toNat + 10

def hexVal (ds : List Char) : Nat := ds.foldl (fun a c => a * 16 + hexDigitVal c) 0

def decVal (ds : List Char) : Nat := ds.foldl (fun a c => a * 10 + (c.toNat - '0'.toNat)) 0

/-- Decoded output of a numeric character reference: the code point when
it is a valid scalar value, U+FFFD otherwise.  (Python additionally maps
a handful of C1/control code points through a Windows-1252 quirk table;
none of those forms are produced by the tool or exercised here.) -/
def numericCharOut (n : Nat) : Char :=
  if Nat.isValidChar n then Char.ofNat n else '\uFFFD'

/-- Named character references recognised by the model, ordered by
decreasing length so that the first prefix hit is Python's longest
table-prefix hit (`html.unescape` accepts `amp` `lt` `gt` `quot`
also without the terminating semicolon). -/
def htmlNamedRefs : List (List Char × Char) :=
  [(("quot;").toList, '"'), (("apos;").toList, '\''), (("amp;").toList, '&'),
   (("quot").toList, '"'), (("amp").toList, '&'),
   (("lt;").toList, '<'), (("gt;").toList, '>'),
   (("lt").toList, '<'), (("gt").toList, '>')]

def findNamedRef (g : List Char) : Option (List Char × Char) :=
  htmlNamedRefs.find? (fun e => e.1.isPrefixOf g)

/-- Replacement text for a matched named group `g` (the characters
after `&`, with the optional terminating semicolon): the longest table
prefix is decoded and the rest of the group is emitted verbatim,
exactly as Python resolves it; an unrecognised group is emitted
unchanged behind its ampersand. -/
def resolveNamed (g : List Char) : List Char :=
  match findNamedRef g with
  | some e => e.2 :: g.drop e.1.length
  | none => '&' :: g

/-- Scanner state for the unescape pass: outside a reference, after
`&`, after `&#`, inside a hex reference (with the `x`/`X` character and
digits so far), inside a decimal reference, or inside a named group
(at most 32 characters). -/
inductive UneState where
  | u0
  | u1
  | u2
  | u3 (xc : Char) (buf : List Char)
  | u4 (buf : List Char)
  | uNm (buf : List Char)
deriving DecidableEq, Repr

/-- Pending-state output when the input ends: an unterminated numeric
reference still decodes (the semicolon is optional), anything shorter
is emitted verbatim. -/
def uneFlush : UneState → List Char
  | UneState.u0 => []
  | UneState.u1 => ['&']
  | UneState.u2 => ['&', '#']
  | UneState.u3 xc buf =>
    if buf.isEmpty then ['&', '#', xc] else [numericCharOut (hexVal buf)]
  | UneState.u4 buf => [numericCharOut (decVal buf)]
  | UneState.uNm buf => resolveNamed buf

/-- Step 3: model of Python stdlib `html.unescape` (called by the
source), as a left-to-right scanner over the reference forms above.
Numeric references `&#d+` / `&#[xX]h+` take an optional semicolon; a
named group takes up to 32 charset characters plus an optional
semicolon and resolves through `resolveNamed`; a failed candidate is
emitted verbatim with scanning resumed at the failing character (which
may itself open a new reference). -/
def uneGo : UneState → List Char → List Char
  | st, [] => uneFlush st
  | UneState.u0, c :: t =>
    if c = '&' then uneGo UneState.u1 t else c :: uneGo UneState.u0 t
  | UneState.u1, c :: t =>
    if c = '#' then uneGo UneState.u2 t
    else if ncCharsetOk c then uneGo (UneState.uNm [c]) t
    else if c = '&' then '&' :: uneGo UneState.u1 t
    else '&' :: c :: uneGo UneState.u0 t
  | UneState.u2, c :: t =>
    if c = 'x' || c = 'X' then uneGo (UneState.u3 c []) t
    else if isDecDigit c then uneGo (UneState.u4 [c]) t
    else if c = '&' then '&' :: '#' :: uneGo UneState.u1 t
    else '&' :: '#' :: c :: uneGo UneState.u0 t
  | UneState.u3 xc buf, c :: t =>
    if isHexDigitCh c then uneGo (UneState.u3 xc (buf ++ [c])) t
    else if buf.isEmpty then
      '&' :: '#' :: xc :: (if c = '&' then uneGo UneState.u1 t else c :: uneGo UneState.u0 t)
    else if c = ';' then numericCharOut (hexVal buf) :: uneGo UneState.u0 t
    else numericCharOut (hexVal buf) ::
      (if c = '&' then uneGo UneState.u1 t else c :: uneGo UneState.u0 t)
  | UneState.u4 buf, c :: t =>
    if isDecDigit c then uneGo (UneState.u4 (buf ++ [c])) t
    else if c = ';' then numericCharOut (decVal buf) :: uneGo UneState.u0 t
    else numericCharOut (decVal buf) ::
      (if c = '&' then uneGo UneState.u1 t else c :: uneGo UneState.u0 t)
  | UneState.uNm buf, c :: t =>
    if c = ';' then resolveNamed (buf ++ [';']) ++ uneGo UneState.u0 t
    else if ncCharsetOk c && buf.length < 32 then uneGo (UneState.uNm (buf ++ [c])) t
    else if c = '&' then resolveNamed buf ++ uneGo UneState.u1 t
    else resolveNamed buf ++ c :: uneGo UneState.u0 t

def html_unescape (s : List Char) : List Char := uneGo UneState.u0 s

/-- Character class of step 4's removal regex: x00-x08, x0b, x0c,
x0e-x1f, the surrogate range xD800-xDFFF (unpopulated over Lean scalar
values but kept for faithfulness), xFFFE and xFFFF. -/
def invalidXmlChar (c : Char) : Bool :=
  c.toNat ≤ 0x08 || c.toNat = 0x0b || c.toNat = 0x0c ||
  (0x0e ≤ c.toNat && c.toNat ≤ 0x1f) ||
  (0xD800 ≤ c.toNat && c.toNat ≤ 0xDFFF) ||
  c.toNat = 0xFFFE || c.toNat = 0xFFFF

/-- Step 4: remove invalid XML characters. -/
def remove_invalid_xml_chars (s : List Char) : List Char :=
  s.filter (fun c => !invalidXmlChar c)

/-- Step 5, embedding `raw_xml.replace("&", "&amp;")`. -/
def escape_amp : List Char → List Char
  | [] => []
  | c :: rest =>
    if c = '&' then '&' :: 'a' :: 'm' :: 'p' :: ';' :: escape_amp rest
    else c :: escape_amp rest

/-- Lookahead of step 6's regex `<(?!/?[a-zA-Z])`: a `<` is kept exactly
when the next character is a letter, or is `/` followed by a letter. -/
def ltKept : List Char → Bool
  | [] => false
  | c :: rest =>
    if c = '/' then (match rest with | d :: _ => isAsciiAlpha d | [] => false)
    else isAsciiAlpha c

/-- Step 6: escape every `<` that does not open a tag. -/
def escape_stray_lt : List Char → List Char
  | [] => []
  | c :: rest =>
    if c = '<' then
      (if ltKept rest then '<' :: escape_stray_lt rest
       else '&' :: 'l' :: 't' :: ';' :: escape_stray_lt rest)
    else c :: escape_stray_lt rest

def xmlDeclChars : List Char := ("<?xml version=\"1.0\" encoding=\"UTF-8\"?>").toList

def pagesOpenTag : List Char := ("<pages>").toList

def pagesCloseTag : List Char := ("</pages>").toList

/-- Embedding of the pure text transformation of `__clean_xml`: the six
rewriting steps applied in source order, then the synthetic root
wrapping with the XML declaration. -/
def clean_xml (s : List Char) : List Char :=
  xmlDeclChars ++ pagesOpenTag ++
    escape_stray_lt (escape_amp (remove_invalid_xml_chars
      (html_unescape (replace_quot (sub_hex_ncr s))))) ++
    pagesCloseTag

/-! ## Process invocation (`__call_ghostscript`) -/

/-- Source of the extraction request: a filesystem path or an in-memory
byte buffer (`Union[str, bytes]`). -/
inductive Source where
  | path (p : List Char)
  | bytes (b : List Nat)
deriving DecidableEq, Repr

/-- Python `str(i)` on an int. -/
def intRepr (i : Int) : List Char := (toString i).toList

/-- Binary selection `"gs" if os.name != "nt" else "gswin64c"`. -/
def gsBinary (isNt : Bool) : List Char :=
  if isNt then ("gswin64c").toList else ("gs").toList

def pwdFlag (password : List Char) : List Char :=
  ("-sPDFPassword=\"").toList ++ password ++ ['"']

def outputFileFlag (tempPath : List Char) : List Char :=
  ("-sOutputFile=\"").toList ++ tempPath ++ ['"']

/-- Embedding of the `command_line_args` construction in
`__call_ghostscript`, with the source's sequential conditional appends
(`if password: ...`, `if first_page: ...`, `if last_page: ...`).
Python truthiness: a string is truthy iff non-empty, an int iff
non-zero. -/
def call_ghostscript_args (isNt : Bool) (source : Source) (tempPath : List Char)
    (password : List Char) (first_page last_page : Int) : List (List Char) :=
  let base := [gsBinary isNt, ("-dNOPAUSE").toList, ("-dBATCH").toList,
    ("-dSAFER").toList, ("-dTextFormat=1").toList, ("-sDEVICE=txtwrite").toList]
  let a1 := if password ≠ [] then base ++ [pwdFlag password] else base
  let a2 := if first_page ≠ 0 then a1 ++ [("-dFirstPage=").toList ++ intRepr first_page] else a1
  let a3 := if last_page ≠ 0 then a2 ++ [("-dLastPage=").toList ++ intRepr last_page] else a2
  let a4 := a3 ++ [outputFileFlag tempPath]
  a4 ++ [match source with | Source.path p => p | Source.bytes _ => ['-']]

/-- The `gs_call = " ".join(command_line_args)` string. -/
def gs_call (isNt : Bool) (source : Source) (tempPath : List Char)
    (password : List Char) (first_page last_page : Int) : List Char :=
  joinSpace (call_ghostscript_args isNt source tempPath password first_page last_page)

/-- What `subprocess.run` receives: the space-joined command string, the
`shell` flag (`shell = (ghostscript == "gs")`), and the piped standard
input (`input = source if pipe else None`). -/
structure GsInvocation where
  commandString : List Char
  shell : Bool
  stdinData : Option (List Nat)
deriving DecidableEq, Repr

def call_ghostscript_invocation (isNt : Bool) (source : Source) (tempPath : List Char)
    (password : List Char) (first_page last_page : Int) : GsInvocation where
  commandString := gs_call isNt source tempPath password first_page last_page
  shell := !isNt
  stdinData := match source with | Source.bytes b => some b | Source.path _ => none

/-- Judge-side model of POSIX shell field splitting restricted to the
double-quote rule: unquoted spaces separate fields, a double quote
toggles quoting (its characters contribute to the current field), and a
command ending inside an open quote has no valid field decomposition
(`none`).  This captures the "intended flag/argument structure" a
space-joined, quote-wrapped command is supposed to have. -/
def shellFieldsAux : List Char → Bool → Option (List Char) → List (List Char) →
    Option (List (List Char))
  | [], false, cur, acc => some (acc ++ cur.toList)
  | [], true, _, _ => none
  | ' ' :: r, false, cur, acc => shellFieldsAux r false none (acc ++ cur.toList)
  | '"' :: r, inQ, cur, acc => shellFieldsAux r (!inQ) (some (cur.getD [])) acc
  | c :: r, inQ, cur, acc => shellFieldsAux r inQ (some (cur.getD [] ++ [c])) acc

def shellFields (s : List Char) : Option (List (List Char)) :=
  shellFieldsAux s false none []

/-- Shell quote removal on one argument: what a well-behaved argument is
intended to deliver to the spawned program. -/
def stripDq (a : List Char) : List Char := a.filter (fun c => c ≠ '"')

/-! ## Model of XML parsing (`xml.etree.ElementTree`)

The repaired document is consumed by `ET.iterparse`.  Well-formedness
and the resulting element structure are modelled by a by-the-book XML
parser over the fragment the sanitizer emits: an optional declaration,
elements with alphabetic tag names and no attributes, character data
with the five predefined and numeric character references, the `]]>`
prohibition in character data, and the invalid-character rules.  A
forest is a sibling list of text characters and elements. -/

inductive XmlF where
  | nilF
  | txtF (c : Char) (rest : XmlF)
  | elemF (tag : List Char) (kids : XmlF) (rest : XmlF)
deriving DecidableEq, Repr

/-- Concatenation of sibling forests. -/
def appF : XmlF → XmlF → XmlF
  | XmlF.nilF, g => g
  | XmlF.txtF c r, g => XmlF.txtF c (appF r g)
  | XmlF.elemF t k r, g => XmlF.elemF t k (appF r g)

/-- Forest of pure text. -/
def txtChain (b : List Char) : XmlF := b.foldr XmlF.txtF XmlF.nilF

/-- Characters allowed as plain XML character data by the model. -/
def xmlTextOk (c : Char) : Bool := !invalidXmlChar c && c ≠ '<' && c ≠ '&'

/-- Code points a character reference may designate. -/
def xmlRefOk (n : Nat) : Bool :=
  Nat.isValidChar n && !invalidXmlChar (Char.ofNat n)

/-- Character reference resolution; `buf` is the reference body between
`&` and `;`.  The five predefined entities and numeric references to
valid XML characters are accepted. -/
def resolveEntity (buf : List Char) : Option Char :=
  if buf = ("amp").toList then some '&'
  else if buf = ("apos").toList then some '\''
  else if buf = ("lt").toList then some '<'
  else if buf = ("gt").toList then some '>'
  else if buf = ("quot").toList then some '"'
  else
    match buf with
    | '#' :: 'x' :: ds =>
      if !ds.isEmpty && ds.all isHexDigitCh && xmlRefOk (hexVal ds) then
        some (Char.ofNat (hexVal ds))
      else none
    | '#' :: ds =>
      if !ds.isEmpty && ds.all isDecDigit && xmlRefOk (decVal ds) then
        some (Char.ofNat (decVal ds))
      else none
    | _ => none

/-- Lookahead used for the `]]>` prohibition: does the list start with
`]` followed by `>`. -/
def startsCdataEnd : List Char → Bool
  | c1 :: c2 :: _ => c1 = ']' && c2 = '>'
  | _ => false

/-- Parser mode: in character data, inside an opening tag name, inside
a closing tag name, or inside a character reference body. -/
inductive PMode where
  | con
  | opTag (buf : List Char)
  | clTag (buf : List Char)
  | ref (buf : List Char)
deriving DecidableEq, Repr

/-- The parser proper: a stack machine over the character stream.  Each
stack frame holds an open element's tag and the forest accumulated in
the enclosing content; `acc` is the forest of the innermost open
content.  At top level (empty stack) only a single root element may
appear, with no character data outside it; `]]>` is forbidden in
character data. -/
def parseGo : List Char → PMode → List (List Char × XmlF) → XmlF → Option XmlF
  | [], PMode.con, [], acc =>
    (match acc with
     | XmlF.elemF t k XmlF.nilF => some (XmlF.elemF t k XmlF.nilF)
     | _ => none)
  | [], _, _, _ => none
  | '<' :: '/' :: r, PMode.con, stack, acc => parseGo r (PMode.clTag []) stack acc
  | '<' :: r, PMode.con, stack, acc => parseGo r (PMode.opTag []) stack acc
  | '&' :: r, PMode.con, stack, acc =>
    if stack.isEmpty then none else parseGo r (PMode.ref []) stack acc
  | c :: r, PMode.con, stack, acc =>
    if stack.isEmpty then none
    else if c = ']' && startsCdataEnd r then none
    else if xmlTextOk c then
      parseGo r PMode.con stack (appF acc (XmlF.txtF c XmlF.nilF))
    else none
  | c :: r, PMode.opTag buf, stack, acc =>
    if isAsciiAlpha c then parseGo r (PMode.opTag (buf ++ [c])) stack acc
    else if c = '>' then
      if buf.isEmpty then none
      else if stack.isEmpty && acc ≠ XmlF.nilF then none
      else parseGo r PMode.con ((buf, acc) :: stack) XmlF.nilF
    else none
  | c :: r, PMode.clTag buf, stack, acc =>
    if isAsciiAlpha c then parseGo r (PMode.clTag (buf ++ [c])) stack acc
    else if c = '>' then
      (match stack with
       | [] => none
       | (tag, outer) :: st =>
         if buf = tag then
           parseGo r PMode.con st (appF outer (XmlF.elemF tag acc XmlF.nilF))
         else none)
    else none
  | c :: r, PMode.ref buf, stack, acc =>
    if c = ';' then
      (match resolveEntity buf with
       | some ch => parseGo r PMode.con stack (appF acc (XmlF.txtF ch XmlF.nilF))
       | none => none)
    else if isAsciiAlpha c || isDecDigit c || c = '#' then
      parseGo r (PMode.ref (buf ++ [c])) stack acc
    else none

/-- Consumption of an XML declaration / processing instruction header:
everything through the first `?>`. -/
def dropPast : List Char → Option (List Char)
  | '?' :: '>' :: r => some r
  | _ :: r => dropPast r
  | [] => none

/-- Whole-document parse: optional `<?...?>` header, then exactly one
root element and nothing else.  `none` models `ET.ParseError`. -/
def parseDoc (s : List Char) : Option XmlF :=
  match s with
  | '<' :: '?' :: r =>
    (match dropPast r with
     | some r2 => parseGo r2 PMode.con [] XmlF.nilF
     | none => none)
  | _ => parseGo s PMode.con [] XmlF.nilF

/-! ## Streaming page reader (`__parse_xml`) -/

/-- Events of `ET.iterparse(..., events=("start", "end"))`: element
start, and element end carrying the completed element (tag and child
forest). -/
inductive XmlEvent where
  | startEv (tag : List Char)
  | endEv (tag : List Char) (kids : XmlF)
deriving DecidableEq, Repr

/-- Event stream of a forest in document order. -/
def eventsOf : XmlF → List XmlEvent
  | XmlF.nilF => []
  | XmlF.txtF _ r => eventsOf r
  | XmlF.elemF t k r => XmlEvent.startEv t :: (eventsOf k ++ XmlEvent.endEv t k :: eventsOf r)

/-- One page unit delivered to the consumer: the `MemoryMap` built by
the `build_memory_map()` / `load_memory_map(page=element, ...)` pair. -/
structure PageUnit where
  node : XmlF
  drop_duplicate_spans : Bool
deriving DecidableEq, Repr

def pageTag : List Char := ("page").toList

/-- Body of the `for event, element in tree_iterator` loop: every "end"
event whose element has tag `page` loads one page, in stream order. -/
def collectPages (dd : Bool) : List XmlEvent → List PageUnit
  | [] => []
  | XmlEvent.endEv t kids :: r =>
    if t = pageTag then PageUnit.mk kids dd :: collectPages dd r else collectPages dd r
  | XmlEvent.startEv _ :: r => collectPages dd r

/-- Embedding of `__parse_xml`'s traversal: the first event (the root
element's start) is consumed by the initial `next(tree_iterator)`, the
loop handles the rest. -/
def parse_xml_events (evs : List XmlEvent) (dd : Bool) : List PageUnit :=
  collectPages dd (evs.drop 1)

/-- Subtrees of `page` elements in end-event (document close) order. -/
def pagesPost : XmlF → List XmlF
  | XmlF.nilF => []
  | XmlF.txtF _ r => pagesPost r
  | XmlF.elemF t k r => pagesPost k ++ (if t = pageTag then [k] else []) ++ pagesPost r

def countPageEnds (evs : List XmlEvent) : Nat :=
  evs.countP (fun e => match e with | XmlEvent.endEv t _ => decide (t = pageTag) | _ => false)

def hasPageElem : XmlF → Bool
  | XmlF.nilF => false
  | XmlF.txtF _ r => hasPageElem r
  | XmlF.elemF t k r => decide (t = pageTag) || hasPageElem k || hasPageElem r

/-- No `page` element strictly inside another `page` element.  Under
this condition the `element.clear()` performed after each loaded page
can never erase part of a page still to be delivered, so delivering the
parsed subtree is faithful to the mutating source loop. -/
def noNestedPage : XmlF → Bool
  | XmlF.nilF => true
  | XmlF.txtF _ r => noNestedPage r
  | XmlF.elemF t k r =>
    (if t = pageTag then !hasPageElem k else noNestedPage k) && noNestedPage r

/-! ## Pipeline state model (`process` / `__generate_xml_file`) -/

structure PipelineOut where
  result : Except GsError (List PageUnit)
  tempFileExists : Bool
deriving Repr

/-- State-passing embedding of `process` → `__generate_xml_file` →
`__clean_xml` → `__parse_xml` for the temporary file's lifecycle.  The
file is created by the Ghostscript invocation's output redirection
(spec §3: the raw document is "created empty by ProcessInvoker's output
redirection"); `fileContent` is the text Ghostscript wrote into it.  A
`PermissionError`/`RuntimeError` raised by `__handle_gs_result`, and an
`ET.ParseError` raised while iterating inside `__parse_xml`, propagate
out of `process`; `os.remove(xml_file_path)` is executed only at the
end of `__parse_xml`'s loop on the success path. -/
def processModel (output : GsOutput) (fileContent : List Char) (dd : Bool) :
    PipelineOut :=
  let status := validate_gs_output output
  match handle_gs_result status with
  | Except.error e => PipelineOut.mk (Except.error e) true
  | Except.ok _ =>
    let cleaned := clean_xml fileContent
    match parseDoc cleaned with
    | none => PipelineOut.mk (Except.error GsError.parseError) true
    | some doc => PipelineOut.mk (Except.ok (parse_xml_events (eventsOf doc) dd)) false

/-! ## Theorems -/

/-- C2: for every captured process outcome, classification tests the
diagnostic substrings of the combined permissively decoded output in
priority order: the "requires a password" marker forces `LOCKED`
regardless of exit code; otherwise the "password did not work" marker
forces `WRONG_PASSWORD` even when an UnknownError-triggering condition
(non-zero exit or the "Unrecoverable error" marker) holds
simultaneously; otherwise those conditions force `UNKNOWN_ERROR`;
otherwise the result is `LOADED`. -/
theorem c2_classification_priority (o : GsOutput) :
    (occursIn lockedMarker (gsErr o) = true →
      validate_gs_output o = Result.LOCKED)
    ∧ (occursIn lockedMarker (gsErr o) = false →
        occursIn wrongPwMarker (gsErr o) = true →
        validate_gs_output o = Result.WRONG_PASSWORD)
    ∧ (occursIn lockedMarker (gsErr o) = false →
        occursIn wrongPwMarker (gsErr o) = false →
        (occursIn unrecovMarker (gsErr o) = true ∨ o.returncode ≠ 0) →
        validate_gs_output o = Result.UNKNOWN_ERROR)
    ∧ (occursIn lockedMarker (gsErr o) = false →
        occursIn wrongPwMarker (gsErr o) = false →
        occursIn unrecovMarker (gsErr o) = false → o.returncode = 0 →
        validate_gs_output o = Result.LOADED) := by
  refine ⟨fun h1 => ?_, fun h1 h2 => ?_, fun h1 h2 h3 => ?_, fun h1 h2 h3 h4 => ?_⟩
  · simp [validate_gs_output, h1]
  · simp [validate_gs_output, h1, h2]
  · rcases h3 with h3 | h3 <;> simp [validate_gs_output, h1, h2, h3]
  · simp [validate_gs_output, h1, h2, h3, h4]

/-- Witness for C2 at a concrete outcome where the wrong-password
marker and both UnknownError triggers hold simultaneously. -/
theorem c2_witness :
    occursIn lockedMarker (gsErr (GsOutput.mk 1
        ((("Unrecoverable error: Password did not work").toList).map Char.toNat) [])) = false
    ∧ validate_gs_output (GsOutput.mk 1
        ((("Unrecoverable error: Password did not work").toList).map Char.toNat) []) =
        Result.WRONG_PASSWORD :=
  ⟨by decide,
   (c2_classification_priority _).2.1 (by decide) (by decide)⟩

/-- C8: handling a classification raises iff the status is not
`LOADED`: `LOADED` proceeds; `LOCKED` and `WRONG_PASSWORD` raise
`PermissionError`s with distinct messages; `UNKNOWN_ERROR` raises a
generic `RuntimeError`. -/
theorem c8_failure_surfacing :
    (∀ r : Result, handle_gs_result r = Except.ok () ↔ r = Result.LOADED)
    ∧ handle_gs_result Result.LOCKED =
        Except.error (GsError.permissionError lockedMsg)
    ∧ handle_gs_result Result.WRONG_PASSWORD =
        Except.error (GsError.permissionError wrongPasswordMsg)
    ∧ handle_gs_result Result.UNKNOWN_ERROR =
        Except.error (GsError.runtimeError unknownErrorMsg)
    ∧ lockedMsg ≠ wrongPasswordMsg := by
  refine ⟨fun r => ?_, rfl, rfl, rfl, by decide⟩
  cases r <;> simp [handle_gs_result]

/-- Argument list exactly as the specification's sentence describes it:
the fixed flags first, the password flag exactly when the password is
non-empty, the first/last-page flags exactly when non-zero, the
always-present output-path flag, and the trailing source argument
(the literal path, or `-` for a byte buffer). -/
def specDescribedArgs (isNt : Bool) (source : Source) (tempPath : List Char)
    (password : List Char) (first_page last_page : Int) : List (List Char) :=
  [gsBinary isNt, ("-dNOPAUSE").toList, ("-dBATCH").toList, ("-dSAFER").toList,
    ("-dTextFormat=1").toList, ("-sDEVICE=txtwrite").toList]
  ++ (if password = [] then [] else [pwdFlag password])
  ++ (if first_page = 0 then [] else [("-dFirstPage=").toList ++ intRepr first_page])
  ++ (if last_page = 0 then [] else [("-dLastPage=").toList ++ intRepr last_page])
  ++ [outputFileFlag tempPath]
  ++ [match source with | Source.path p => p | Source.bytes _ => ['-']]

/-- C9: the argument list is built deterministically in the fixed order
the specification describes, with each optional flag present exactly
under its stated condition, and a byte-buffer source is passed as `-`
with its bytes piped to standard input. -/
theorem c9_argument_construction (isNt : Bool) (source : Source) (tempPath : List Char)
    (password : List Char) (first_page last_page : Int) :
    call_ghostscript_args isNt source tempPath password first_page last_page =
      specDescribedArgs isNt source tempPath password first_page last_page
    ∧ (call_ghostscript_invocation isNt source tempPath password
        first_page last_page).stdinData =
        (match source with | Source.bytes b => some b | Source.path _ => none) := by
  constructor
  · unfold call_ghostscript_args specDescribedArgs
    by_cases hp : password = [] <;> by_cases hf : first_page = 0 <;>
      by_cases hl : last_page = 0 <;> simp [hp, hf, hl]
  · rfl

/-- Detector for the claim's hexadecimal numeric character reference
pattern `&#xH...H;` with `H` ranging over all hexadecimal digits. -/
def hexNCRAt : List Char → Bool
  | '&' :: '#' :: 'x' :: t =>
    !(t.takeWhile isHexDigitCh).isEmpty &&
      (t.drop (t.takeWhile isHexDigitCh).length).head? = some ';'
  | _ => false

def containsHexNCR : List Char → Bool
  | [] => false
  | c :: t => hexNCRAt (c :: t) || containsHexNCR t

/-- C4 counterexample: the input `&#xa;` is a hexadecimal numeric
character reference, yet it survives step 1 unchanged, because the
source regex `&#x[0-9]+;` only matches decimal digit bodies. -/
theorem c4_counterexample :
    sub_hex_ncr (("&#xa;").toList) = ("&#xa;").toList
    ∧ containsHexNCR (sub_hex_ncr (("&#xa;").toList)) = true := by
  exact ⟨by decide, by decide⟩

theorem ncrGo_s3_digits (ds : List Char) : ∀ (rev rest : List Char),
    (∀ c ∈ ds, isDecDigit c = true) → (rev ≠ [] ∨ ds ≠ []) →
    ncrGo (NcrState.s3 rev) (ds ++ ';' :: rest) = ncrGo NcrState.s0 rest := by
  induction ds with
  | nil =>
    intro rev rest _ hne
    have hrev : rev ≠ [] := by
      rcases hne with h | h
      · exact h
      · exact absurd rfl h
    have : rev.isEmpty = false := by
      cases rev
      · exact absurd rfl hrev
      · rfl
    simp [ncrGo, this, (by decide : isDecDigit ';' = false)]
  | cons d ds ih =>
    intro rev rest h hne
    have hd : isDecDigit d = true := h d (List.mem_cons_self d ds)
    simp only [List.cons_append, ncrGo, hd, if_true]
    exact ih (d :: rev) rest (fun c hc => h c (List.mem_cons_of_mem d hc))
      (Or.inl (List.cons_ne_nil d rev))

/-- C4 amended: step 1 removes a reference of the form `&#x`, one or
more DECIMAL digits, `;` (shown here at the head of the scan), while a
reference whose body starts with any other character — in particular a
hexadecimal digit letter — is emitted verbatim and not removed. -/
theorem c4_amended_decimal_only :
    (∀ ds rest : List Char, ds ≠ [] → (∀ c ∈ ds, isDecDigit c = true) →
      sub_hex_ncr ('&' :: '#' :: 'x' :: (ds ++ ';' :: rest)) = sub_hex_ncr rest)
    ∧ (∀ (d : Char) (rest : List Char), isHexDigitCh d = true → isDecDigit d = false →
      sub_hex_ncr ('&' :: '#' :: 'x' :: d :: rest) =
        '&' :: '#' :: 'x' :: d :: sub_hex_ncr rest) := by
  constructor
  · intro ds rest hds h
    show ncrGo NcrState.s0 _ = _
    simp only [ncrGo, if_true]
    exact ncrGo_s3_digits ds [] rest h (Or.inr hds)
  · intro d rest hhex hdec
    have hne1 : d ≠ ';' := by
      intro h
      subst h
      exact absurd hhex (by decide)
    have hne2 : d ≠ '&' := by
      intro h
      subst h
      exact absurd hhex (by decide)
    show ncrGo NcrState.s0 _ = _
    simp [ncrGo, sub_hex_ncr, hdec, hne1, hne2]

/-- Witness for C4's amended statement: a decimal-bodied reference is
removed, a letter-bodied hexadecimal reference is preserved. -/
theorem c4_witness :
    sub_hex_ncr ('&' :: '#' :: 'x' :: (['1', '2'] ++ ';' :: [])) = sub_hex_ncr []
    ∧ sub_hex_ncr ('&' :: '#' :: 'x' :: 'a' :: [';']) =
        '&' :: '#' :: 'x' :: 'a' :: sub_hex_ncr [';'] :=
  ⟨c4_amended_decimal_only.1 ['1', '2'] [] (by decide) (by decide),
   c4_amended_decimal_only.2 'a' [';'] (by decide) (by decide)⟩

def c6Input : List Char := ("a & <item>x</item> b < c").toList

/-- C6: for a raw document with a literal ampersand, a well-formed
`<item>` tag and a stray `<` not followed by a letter or `/`, sanitize
turns the ampersand into `&amp;`, the stray `<` into `&lt;`, and keeps
`<item>` as a tag. -/
theorem c6_entity_escaping :
    clean_xml c6Input =
      xmlDeclChars ++ pagesOpenTag ++
        ("a &amp; <item>x</item> b &lt; c").toList ++ pagesCloseTag
    ∧ occursIn (("&amp;").toList) (clean_xml c6Input) = true
    ∧ occursIn (("&lt;").toList) (clean_xml c6Input) = true
    ∧ occursIn (("<item>").toList) (clean_xml c6Input) = true := by
  exact ⟨by decide, by decide, by decide, by decide⟩

/-- C1 counterexample: after a classification failure (encrypted file,
no password) and equally after a structural parse failure inside the
page reader, the call returns with the temporary document file still
existing — there is no cleanup on either failure path. -/
theorem c1_counterexample :
    (processModel (GsOutput.mk 1 [] (lockedMarker.map Char.toNat))
        (("x").toList) true).tempFileExists = true
    ∧ (processModel (GsOutput.mk 1 [] (lockedMarker.map Char.toNat))
        (("x").toList) true).result = Except.error (GsError.permissionError lockedMsg)
    ∧ (processModel (GsOutput.mk 0 [] []) (("<a").toList) true).tempFileExists = true
    ∧ (processModel (GsOutput.mk 0 [] []) (("<a").toList) true).result =
        Except.error GsError.parseError := by
  exact ⟨rfl, rfl, rfl, rfl⟩

/-- C1 amended: the temporary document file is gone after the call
exactly when the call succeeds; on every failure path (classification
failure raised before parsing, and parse failure inside the page
reader) the file still exists when the exception propagates. -/
theorem c1_amended_cleanup_on_success_only (output : GsOutput)
    (content : List Char) (dd : Bool) :
    (processModel output content dd).tempFileExists =
      !(processModel output content dd).result.isOk := by
  unfold processModel
  cases h : handle_gs_result (validate_gs_output output) with
  | error e => simp [h, Except.isOk, Except.toBool]
  | ok u =>
    cases h2 : parseDoc (clean_xml content) with
    | none => simp [h, h2, Except.isOk, Except.toBool]
    | some doc => simp [h, h2, Except.isOk, Except.toBool]

theorem isPrefixOf_append_self (x r : List Char) : x.isPrefixOf (x ++ r) = true := by
  induction x with
  | nil => simp [List.isPrefixOf]
  | cons c t ih => simp [List.isPrefixOf, ih]

theorem occursIn_append_right (x pre hay : List Char) (h : occursIn x hay = true) :
    occursIn x (pre ++ hay) = true := by
  induction pre with
  | nil => exact h
  | cons c t ih =>
    show occursIn x (c :: (t ++ hay)) = true
    rw [occursIn]
    rcases hay with _ | _
    · rcases t with _ | _ <;> simp_all [occursIn]
    · simp [ih]

theorem occursIn_self_append (x post : List Char) : occursIn x (x ++ post) = true := by
  cases x with
  | nil => cases post <;> simp [occursIn, List.isPrefixOf]
  | cons c t =>
    show occursIn (c :: t) (c :: (t ++ post)) = true
    rw [occursIn]
    simp [isPrefixOf_append_self]

theorem occursIn_of_mem_joinSpace (a : List Char) (l : List (List Char)) (h : a ∈ l) :
    occursIn a (joinSpace l) = true := by
  induction l with
  | nil => cases h
  | cons x rest ih =>
    cases rest with
    | nil =>
      have : a = x := by simpa using h
      subst this
      have := occursIn_self_append a []
      simpa using this
    | cons y ys =>
      rcases List.mem_cons.mp h with h1 | h1
      · subst h1
        exact occursIn_self_append a (' ' :: joinSpace (y :: ys))
      · have h2 := ih h1
        have h3 : occursIn a (' ' :: joinSpace (y :: ys)) = true := by
          rw [occursIn]
          simp [h2]
        have h4 := occursIn_append_right a x (' ' :: joinSpace (y :: ys)) h3
        simpa using h4

theorem pwdFlag_mem_args (isNt : Bool) (source : Source) (tempPath : List Char)
    (password : List Char) (fp lp : Int) (hp : password ≠ []) :
    pwdFlag password ∈ call_ghostscript_args isNt source tempPath password fp lp := by
  unfold call_ghostscript_args
  simp only [hp, if_true, ne_eq, not_false_iff]
  by_cases hf : fp ≠ 0 <;> by_cases hl : lp ≠ 0 <;> simp [hf, hl]

theorem outFlag_mem_args (isNt : Bool) (source : Source) (tempPath : List Char)
    (password : List Char) (fp lp : Int) :
    outputFileFlag tempPath ∈ call_ghostscript_args isNt source tempPath password fp lp := by
  unfold call_ghostscript_args
  by_cases hp : password ≠ [] <;> by_cases hf : fp ≠ 0 <;> by_cases hl : lp ≠ 0 <;>
    simp [hp, hf, hl]

/-- C10: the command is a single space-joined string in which, for
every non-empty password, `-sPDFPassword="password"` appears with the
password inserted verbatim between literal double quotes (and likewise
the output path), with no escaping; consequently a password containing
a double quote leaves the command with no valid field structure at all
(unbalanced quote), and a source path containing a space splits into
two fields instead of remaining the single intended source argument. -/
theorem c10_verbatim_quoting (isNt : Bool) (source : Source) (tempPath : List Char)
    (password : List Char) (fp lp : Int) (hp : password ≠ []) :
    occursIn (("-sPDFPassword=\"").toList ++ password ++ ['"'])
      (gs_call isNt source tempPath password fp lp) = true
    ∧ occursIn (("-sOutputFile=\"").toList ++ tempPath ++ ['"'])
      (gs_call isNt source tempPath password fp lp) = true
    ∧ shellFields (gs_call false (Source.path (("doc.pdf").toList)) (("/tmp/t.xml").toList)
        ('a' :: '"' :: 'b' :: []) 0 0) = none
    ∧ shellFields (gs_call false (Source.path (("my doc.pdf").toList)) (("/tmp/t.xml").toList)
        [] 0 0) ≠
      some ((call_ghostscript_args false (Source.path (("my doc.pdf").toList))
        (("/tmp/t.xml").toList) [] 0 0).map stripDq) := by
  refine ⟨?_, ?_, by decide, by decide⟩
  · exact occursIn_of_mem_joinSpace _ _ (pwdFlag_mem_args isNt source tempPath password fp lp hp)
  · exact occursIn_of_mem_joinSpace _ _ (outFlag_mem_args isNt source tempPath password fp lp)

/-- Witness for C10 at the password `pw`. -/
theorem c10_witness :
    occursIn (("-sPDFPassword=\"").toList ++ ("pw").toList ++ ['"'])
      (gs_call false (Source.path (("doc.pdf").toList)) (("/tmp/t.xml").toList)
        (("pw").toList) 0 0) = true :=
  (c10_verbatim_quoting false (Source.path (("doc.pdf").toList)) (("/tmp/t.xml").toList)
    (("pw").toList) 0 0 (by decide)).1

theorem collectPages_append (dd : Bool) (l1 l2 : List XmlEvent) :
    collectPages dd (l1 ++ l2) = collectPages dd l1 ++ collectPages dd l2 := by
  induction l1 with
  | nil => rfl
  | cons e r ih =>
    cases e with
    | startEv t => simp [collectPages, ih]
    | endEv t kids =>
      by_cases h : t = pageTag <;> simp [collectPages, h, ih]

theorem collectPages_eventsOf (dd : Bool) (t : XmlF) :
    collectPages dd (eventsOf t) = (pagesPost t).map (fun k => PageUnit.mk k dd) := by
  induction t with
  | nilF => rfl
  | txtF c r ih => simpa [eventsOf, pagesPost] using ih
  | elemF tag k r ihk ihr =>
    show collectPages dd (XmlEvent.startEv tag ::
      (eventsOf k ++ XmlEvent.endEv tag k :: eventsOf r)) = _
    rw [collectPages, collectPages_append]
    by_cases h : tag = pageTag <;>
      simp [collectPages, h, ihk, ihr, pagesPost]

theorem countPageEnds_eventsOf (t : XmlF) :
    countPageEnds (eventsOf t) = (pagesPost t).length := by
  induction t with
  | nilF => rfl
  | txtF c r ih => simpa [eventsOf, pagesPost] using ih
  | elemF tag k r ihk ihr =>
    show countPageEnds (XmlEvent.startEv tag ::
      (eventsOf k ++ XmlEvent.endEv tag k :: eventsOf r)) = _
    unfold countPageEnds at ihk ihr ⊢
    by_cases h : tag = pageTag <;>
      simp [List.countP_cons, List.countP_append, h, ihk, ihr, pagesPost]

/-- C7: for a well-formed repaired document (a parsed root element), the
page reader delivers exactly one page unit per `page` close event, in
close-event (ascending document) order: the delivered list is the list
of `page` subtrees in document order, and its length is the number of
`page` close events.  The no-nested-page hypothesis is what makes the
mutation-free event model faithful to the source's `element.clear()`
loop. -/
theorem c7_page_delivery (s : List Char) (root : List Char) (kids : XmlF) (dd : Bool)
    (_hparse : parseDoc s = some (XmlF.elemF root kids XmlF.nilF))
    (_hnest : noNestedPage (XmlF.elemF root kids XmlF.nilF) = true) :
    parse_xml_events (eventsOf (XmlF.elemF root kids XmlF.nilF)) dd =
      (pagesPost (XmlF.elemF root kids XmlF.nilF)).map (fun k => PageUnit.mk k dd)
    ∧ (parse_xml_events (eventsOf (XmlF.elemF root kids XmlF.nilF)) dd).length =
        countPageEnds (eventsOf (XmlF.elemF root kids XmlF.nilF)) := by
  have hdrop : parse_xml_events (eventsOf (XmlF.elemF root kids XmlF.nilF)) dd =
      collectPages dd (eventsOf kids ++ XmlEvent.endEv root kids :: eventsOf XmlF.nilF) := by
    rfl
  constructor
  · rw [hdrop, collectPages_append]
    by_cases h : root = pageTag <;>
      simp [collectPages, collectPages_eventsOf, h, pagesPost, eventsOf]
  · rw [countPageEnds_eventsOf, hdrop, collectPages_append]
    by_cases h : root = pageTag <;>
      simp [collectPages, collectPages_eventsOf, h, pagesPost, eventsOf]

/-- Witness for C7 on a concrete two-page document. -/
theorem c7_witness :
    parseDoc (("<pages><page>a</page><page></page></pages>").toList) =
      some (XmlF.elemF (("pages").toList)
        (XmlF.elemF pageTag (XmlF.txtF 'a' XmlF.nilF)
          (XmlF.elemF pageTag XmlF.nilF XmlF.nilF)) XmlF.nilF)
    ∧ parse_xml_events (eventsOf (XmlF.elemF (("pages").toList)
        (XmlF.elemF pageTag (XmlF.txtF 'a' XmlF.nilF)
          (XmlF.elemF pageTag XmlF.nilF XmlF.nilF)) XmlF.nilF)) true =
      [PageUnit.mk (XmlF.txtF 'a' XmlF.nilF) true, PageUnit.mk XmlF.nilF true] :=
  ⟨by decide,
   by
    rw [(c7_page_delivery (("<pages><page>a</page><page></page></pages>").toList)
      (("pages").toList)
      (XmlF.elemF pageTag (XmlF.txtF 'a' XmlF.nilF)
        (XmlF.elemF pageTag XmlF.nilF XmlF.nilF)) true (by decide) (by decide)).1]
    decide⟩

/-! ## Sanitizer structure lemmas (toward C3 and C5) -/

/-- Text of the document after steps 1-4, before the escaping steps. -/
def preBody (x : List Char) : List Char :=
  remove_invalid_xml_chars (html_unescape (replace_quot (sub_hex_ncr x)))

/-- Per-character effect of steps 5 and 6 on text with no tag-opening
`<`: ampersands and all `<` become entities, everything else is kept. -/
def escUnits : List Char → List Char
  | [] => []
  | c :: r =>
    if c = '&' then '&' :: 'a' :: 'm' :: 'p' :: ';' :: escUnits r
    else if c = '<' then '&' :: 'l' :: 't' :: ';' :: escUnits r
    else c :: escUnits r

/-- Every `<` of the text fails step 6's tag lookahead. -/
def noTaggyAll : List Char → Bool
  | [] => true
  | c :: r => (if c = '<' then !ltKept r else true) && noTaggyAll r

theorem appF_nilF (f : XmlF) : appF f XmlF.nilF = f := by
  induction f with
  | nilF => rfl
  | txtF c r ih => simp [appF, ih]
  | elemF t k r ih1 ih2 => simp [appF, ih2]

theorem appF_assoc (a b c : XmlF) : appF (appF a b) c = appF a (appF b c) := by
  induction a with
  | nilF => rfl
  | txtF ch r ih => simp [appF, ih]
  | elemF t k r ih1 ih2 => simp [appF, ih2]

theorem ltKept_escape_amp (r : List Char) : ltKept (escape_amp r) = ltKept r := by
  cases r with
  | nil => rfl
  | cons c r2 =>
    by_cases hc : c = '&'
    · subst hc
      simp [escape_amp, ltKept]
    · by_cases hs : c = '/'
      · subst hs
        rw [escape_amp]
        simp only [if_neg hc]
        cases r2 with
        | nil => rfl
        | cons d r3 =>
          by_cases hd : d = '&' <;> simp [escape_amp, ltKept, hd]
      · simp [escape_amp, ltKept, hc, hs]

theorem esc_fusion (y : List Char) (h : noTaggyAll y = true) :
    escape_stray_lt (escape_amp y) = escUnits y := by
  induction y with
  | nil => rfl
  | cons c r ih =>
    rw [noTaggyAll, Bool.and_eq_true] at h
    obtain ⟨hcond, hr⟩ := h
    by_cases hc : c = '&'
    · subst hc
      simp [escape_amp, escape_stray_lt, escUnits, ih hr]
    · by_cases hl : c = '<'
      · subst hl
        have hk : ltKept r = false := by
          simpa using hcond
        rw [escape_amp]
        simp only [if_neg hc]
        rw [escape_stray_lt]
        simp [ltKept_escape_amp, hk, escUnits, ih hr]
      · simp [escape_amp, escape_stray_lt, escUnits, hc, hl, ih hr]

theorem parseGo_con_text_step (c : Char) (r : List Char)
    (stack : List (List Char × XmlF)) (acc : XmlF) (hc1 : c ≠ '<') (hc2 : c ≠ '&') :
    parseGo (c :: r) PMode.con stack acc =
      if stack.isEmpty then none
      else if c = ']' && startsCdataEnd r then none
      else if xmlTextOk c then
        parseGo r PMode.con stack (appF acc (XmlF.txtF c XmlF.nilF))
      else none := by
  rw [parseGo.eq_def]
  split <;> simp_all

theorem startsCdataEnd_escUnits (r tail : List Char)
    (hp : (("]]>").toList).isPrefixOf (']' :: r) = false)
    (ht : tail.head? = some '<') :
    startsCdataEnd (escUnits r ++ tail) = false := by
  cases r with
  | nil =>
    cases tail with
    | nil => simp at ht
    | cons a t2 =>
      have ha : a = '<' := by simpa using ht
      subst ha
      cases t2 <;> simp [escUnits, startsCdataEnd]
  | cons d r2 =>
    by_cases hd : d = '&'
    · subst hd
      simp [escUnits, startsCdataEnd]
    · by_cases hl : d = '<'
      · subst hl
        simp [escUnits, hd, startsCdataEnd]
      · by_cases hb : d = ']'
        · subst hb
          rw [show escUnits (']' :: r2) = ']' :: escUnits r2 from by
            simp [escUnits, hd, hl]]
          have hp2 : (['>'] : List Char).isPrefixOf r2 = false := by
            simpa [List.isPrefixOf] using hp
          cases r2 with
          | nil =>
            cases tail with
            | nil => simp at ht
            | cons a t2 =>
              have ha : a = '<' := by simpa using ht
              subst ha
              simp [escUnits, startsCdataEnd]
          | cons e r3 =>
            have he : e ≠ '>' := by
              intro h
              subst h
              simp [List.isPrefixOf] at hp2
            by_cases h1 : e = '&'
            · subst h1
              simp [escUnits, startsCdataEnd]
            · by_cases h2 : e = '<'
              · subst h2
                simp [escUnits, h1, startsCdataEnd]
              · rw [show escUnits (e :: r3) = e :: escUnits r3 from by
                  simp [escUnits, h1, h2]]
                simp [startsCdataEnd, he]
        · rw [show escUnits (d :: r2) = d :: escUnits r2 from by
            simp [escUnits, hd, hl]]
          cases h : escUnits r2 ++ tail with
          | nil =>
            rw [List.cons_append, h]
            rfl
          | cons a t2 =>
            rw [List.cons_append, h]
            simp [startsCdataEnd, hb]

theorem parseGo_amp_entity (L : List Char) (stack : List (List Char × XmlF))
    (acc : XmlF) (hst : stack.isEmpty = false) :
    parseGo ('&' :: 'a' :: 'm' :: 'p' :: ';' :: L) PMode.con stack acc =
      parseGo L PMode.con stack (appF acc (XmlF.txtF '&' XmlF.nilF)) := by
  simp [parseGo, hst, resolveEntity, (by decide : isAsciiAlpha 'a' = true),
    (by decide : isAsciiAlpha 'm' = true), (by decide : isAsciiAlpha 'p' = true)]

theorem parseGo_lt_entity (L : List Char) (stack : List (List Char × XmlF))
    (acc : XmlF) (hst : stack.isEmpty = false) :
    parseGo ('&' :: 'l' :: 't' :: ';' :: L) PMode.con stack acc =
      parseGo L PMode.con stack (appF acc (XmlF.txtF '<' XmlF.nilF)) := by
  simp [parseGo, hst, resolveEntity, (by decide : isAsciiAlpha 'l' = true),
    (by decide : isAsciiAlpha 't' = true)]

/-- Step-6-escaped clean text inside an open element parses back to
exactly that text, leaving the input at the following tag. -/
theorem parseGo_escUnits (y : List Char) : ∀ (tail : List Char)
    (stack : List (List Char × XmlF)) (acc : XmlF),
    stack.isEmpty = false →
    (∀ c ∈ y, invalidXmlChar c = false) →
    occursIn (("]]>").toList) y = false →
    tail.head? = some '<' →
    parseGo (escUnits y ++ tail) PMode.con stack acc =
      parseGo tail PMode.con stack (appF acc (txtChain y)) := by
  induction y with
  | nil =>
    intro tail stack acc _ _ _ _
    simp [escUnits, txtChain, appF_nilF]
  | cons c r ih =>
    intro tail stack acc hst hv hcd ht
    have hvr : ∀ a ∈ r, invalidXmlChar a = false :=
      fun a ha => hv a (List.mem_cons_of_mem c ha)
    have hvc : invalidXmlChar c = false := hv c (List.mem_cons_self c r)
    have hsplit : (("]]>").toList).isPrefixOf (c :: r) = false ∧
        occursIn (("]]>").toList) r = false := by
      rw [occursIn] at hcd
      exact ⟨by simpa using (Bool.or_eq_false_iff.mp hcd).1,
        (Bool.or_eq_false_iff.mp hcd).2⟩
    by_cases hc : c = '&'
    · subst hc
      rw [show escUnits ('&' :: r) = '&' :: 'a' :: 'm' :: 'p' :: ';' :: escUnits r from by
        simp [escUnits]]
      show parseGo ('&' :: 'a' :: 'm' :: 'p' :: ';' :: (escUnits r ++ tail)) _ _ _ = _
      rw [parseGo_amp_entity _ _ _ hst, ih tail stack _ hst hvr hsplit.2 ht,
        appF_assoc]
      simp [txtChain, appF]
    · by_cases hl : c = '<'
      · subst hl
        rw [show escUnits ('<' :: r) = '&' :: 'l' :: 't' :: ';' :: escUnits r from by
          simp [escUnits]]
        show parseGo ('&' :: 'l' :: 't' :: ';' :: (escUnits r ++ tail)) _ _ _ = _
        rw [parseGo_lt_entity _ _ _ hst, ih tail stack _ hst hvr hsplit.2 ht,
          appF_assoc]
        simp [txtChain, appF]
      · rw [show escUnits (c :: r) = c :: escUnits r from by simp [escUnits, hc, hl]]
        show parseGo (c :: (escUnits r ++ tail)) _ _ _ = _
        rw [parseGo_con_text_step c _ stack acc hl hc]
        have hwin : (decide (c = ']') && startsCdataEnd (escUnits r ++ tail)) = false := by
          by_cases hcb : c = ']'
          · subst hcb
            simp [startsCdataEnd_escUnits r tail hsplit.1 ht]
          · simp [hcb]
        have htx : xmlTextOk c = true := by
          simp [xmlTextOk, hvc, hc, hl]
        rw [hst]
        simp only [Bool.false_eq_true, if_false, hwin, htx, if_true]
        rw [ih tail stack _ hst hvr hsplit.2 ht, appF_assoc]
        simp [txtChain, appF]

theorem parseDoc_decl (z : List Char) :
    parseDoc (xmlDeclChars ++ z) = parseGo z PMode.con [] XmlF.nilF := rfl

theorem parseGo_open_pages (w : List Char) :
    parseGo (pagesOpenTag ++ w) PMode.con [] XmlF.nilF =
      parseGo w PMode.con [((("pages").toList), XmlF.nilF)] XmlF.nilF := rfl

theorem parseGo_close_pages (k : XmlF) :
    parseGo pagesCloseTag PMode.con [((("pages").toList), XmlF.nilF)] k =
      some (XmlF.elemF (("pages").toList) k XmlF.nilF) := rfl

theorem preBody_valid (x : List Char) :
    ∀ c ∈ preBody x, invalidXmlChar c = false := by
  intro c hc
  unfold preBody remove_invalid_xml_chars at hc
  have := (List.mem_filter.mp hc).2
  simpa using this

/-- C3 counterexample: for the raw input `<a`, the sanitized output is
not well-formed — the kept tag-open `<a` is never closed, so the parse
of the repaired document fails. -/
theorem c3_counterexample : parseDoc (clean_xml (("<a").toList)) = none := by decide

/-- Core computation shared by the C3 and C5 analyses: when the text
after steps 1-4 has no tag-opening `<` and no `]]>`, the sanitized
document parses to a single `pages` root holding exactly that text. -/
theorem parseDoc_clean_xml_eq (x : List Char)
    (h1 : noTaggyAll (preBody x) = true)
    (h2 : occursIn (("]]>").toList) (preBody x) = false) :
    parseDoc (clean_xml x) =
      some (XmlF.elemF (("pages").toList) (txtChain (preBody x)) XmlF.nilF) := by
  have hE : clean_xml x =
      xmlDeclChars ++ (pagesOpenTag ++ (escUnits (preBody x) ++ pagesCloseTag)) := by
    show xmlDeclChars ++ pagesOpenTag ++ escape_stray_lt (escape_amp (preBody x)) ++
      pagesCloseTag = _
    rw [esc_fusion _ h1]
    simp [List.append_assoc]
  rw [hE, parseDoc_decl, parseGo_open_pages,
    parseGo_escUnits (preBody x) pagesCloseTag [((("pages").toList), XmlF.nilF)]
      XmlF.nilF rfl (preBody_valid x) h2 rfl]
  show parseGo pagesCloseTag PMode.con _ (txtChain (preBody x)) = _
  exact parseGo_close_pages (txtChain (preBody x))

/-- C3 amended: sanitize output is well-formed parseable XML for every
input whose decoded, stripped text (after steps 1-4) contains no `<`
that opens a tag (next character a letter, or `/` then a letter) and no
`]]>`; on such inputs the document parses to a single `pages` root
holding exactly that text.  (Without these conditions the output can
fail to parse, as the counterexample shows — validity is not guaranteed
for all inputs.) -/
theorem c3_amended_parseable (x : List Char)
    (h1 : noTaggyAll (preBody x) = true)
    (h2 : occursIn (("]]>").toList) (preBody x) = false) :
    parseDoc (clean_xml x) =
      some (XmlF.elemF (("pages").toList) (txtChain (preBody x)) XmlF.nilF)
    ∧ (parseDoc (clean_xml x)).isSome = true := by
  have hmain := parseDoc_clean_xml_eq x h1 h2
  exact ⟨hmain, by rw [hmain]; rfl⟩

/-- Witness for C3's amended statement on a concrete tag-free input. -/
theorem c3_witness :
    noTaggyAll (preBody (("hi & < there").toList)) = true
    ∧ parseDoc (clean_xml (("hi & < there").toList)) =
        some (XmlF.elemF (("pages").toList)
          (txtChain (preBody (("hi & < there").toList))) XmlF.nilF) :=
  ⟨by decide, (c3_amended_parseable (("hi & < there").toList) (by decide) (by decide)).1⟩

/-! ## Identity and distribution lemmas for re-sanitizing (toward C5) -/

theorem ncrGo_s0_id (s : List Char) (h : ∀ c ∈ s, c ≠ '&') :
    ncrGo NcrState.s0 s = s := by
  induction s with
  | nil => rfl
  | cons c t ih =>
    have hc : c ≠ '&' := h c (List.mem_cons_self c t)
    simp [ncrGo, hc, ih (fun a ha => h a (List.mem_cons_of_mem c ha))]

theorem sub_hex_ncr_id (s : List Char) (h : ∀ c ∈ s, c ≠ '&') :
    sub_hex_ncr s = s := ncrGo_s0_id s h

theorem replace_quot_id (s : List Char) (h : ∀ c ∈ s, c ≠ '&') :
    replace_quot s = s := by
  induction s with
  | nil => rfl
  | cons c t ih =>
    have hc : c ≠ '&' := h c (List.mem_cons_self c t)
    have ih2 := ih (fun a ha => h a (List.mem_cons_of_mem c ha))
    rw [replace_quot.eq_def]
    split <;> simp_all

theorem uneGo_u0_id (s : List Char) (h : ∀ c ∈ s, c ≠ '&') :
    uneGo UneState.u0 s = s := by
  induction s with
  | nil => rfl
  | cons c t ih =>
    have hc : c ≠ '&' := h c (List.mem_cons_self c t)
    simp [uneGo, hc, ih (fun a ha => h a (List.mem_cons_of_mem c ha))]

theorem html_unescape_id (s : List Char) (h : ∀ c ∈ s, c ≠ '&') :
    html_unescape s = s := uneGo_u0_id s h

theorem escape_amp_id (s : List Char) (h : ∀ c ∈ s, c ≠ '&') :
    escape_amp s = s := by
  induction s with
  | nil => rfl
  | cons c t ih =>
    have hc : c ≠ '&' := h c (List.mem_cons_self c t)
    simp [escape_amp, hc, ih (fun a ha => h a (List.mem_cons_of_mem c ha))]

theorem escUnits_id (s : List Char) (h : ∀ c ∈ s, c ≠ '&' ∧ c ≠ '<') :
    escUnits s = s := by
  induction s with
  | nil => rfl
  | cons c t ih =>
    have hc := h c (List.mem_cons_self c t)
    simp [escUnits, hc.1, hc.2, ih (fun a ha => h a (List.mem_cons_of_mem c ha))]

theorem escape_stray_lt_clean_append (y w : List Char) (h : ∀ c ∈ y, c ≠ '<') :
    escape_stray_lt (y ++ w) = y ++ escape_stray_lt w := by
  induction y with
  | nil => rfl
  | cons c t ih =>
    have hc : c ≠ '<' := h c (List.mem_cons_self c t)
    simp [escape_stray_lt, hc, ih (fun a ha => h a (List.mem_cons_of_mem c ha))]

theorem noTaggyAll_of_no_lt (s : List Char) (h : ∀ c ∈ s, c ≠ '<') :
    noTaggyAll s = true := by
  induction s with
  | nil => rfl
  | cons c t ih =>
    have hc : c ≠ '<' := h c (List.mem_cons_self c t)
    simp [noTaggyAll, hc, ih (fun a ha => h a (List.mem_cons_of_mem c ha))]

theorem remove_invalid_mem (x : List Char) :
    ∀ c ∈ remove_invalid_xml_chars x, c ∈ x :=
  fun c hc => (List.mem_filter.mp hc).1

theorem remove_invalid_valid (x : List Char) :
    ∀ c ∈ remove_invalid_xml_chars x, invalidXmlChar c = false := by
  intro c hc
  have := (List.mem_filter.mp hc).2
  simpa using this

def xmlDeclTail : List Char := ("?xml version=\"1.0\" encoding=\"UTF-8\"?>").toList

theorem eslt_decl_open (w : List Char) :
    escape_stray_lt ((xmlDeclChars ++ pagesOpenTag) ++ w) =
      ('&' :: 'l' :: 't' :: ';' :: xmlDeclTail) ++ (pagesOpenTag ++ escape_stray_lt w) := rfl

theorem eslt_close_tag : escape_stray_lt pagesCloseTag = pagesCloseTag := rfl

theorem escape_stray_lt_clean_id (y : List Char) (h : ∀ c ∈ y, c ≠ '<') :
    escape_stray_lt y = y := by
  have := escape_stray_lt_clean_append y [] h
  simpa [escape_stray_lt] using this

theorem parseGo_open_pages_inner (w : List Char) (fr : List Char × XmlF)
    (st : List (List Char × XmlF)) (acc : XmlF) :
    parseGo (pagesOpenTag ++ w) PMode.con (fr :: st) acc =
      parseGo w PMode.con (((("pages").toList), acc) :: fr :: st) XmlF.nilF := rfl

theorem parseGo_close_pages_inner (w : List Char) (outer : XmlF)
    (st : List (List Char × XmlF)) (k : XmlF) :
    parseGo (pagesCloseTag ++ w) PMode.con (((("pages").toList), outer) :: st) k =
      parseGo w PMode.con st (appF outer (XmlF.elemF (("pages").toList) k XmlF.nilF)) := rfl

/-- Head observation distinguishing the re-wrapped document from the
original: re-sanitizing prepends the escaped declaration as text. -/
def headTxt : XmlF → Option Char
  | XmlF.txtF c _ => some c
  | _ => none

theorem nested_ne_flat (y : List Char) (h : ∀ c ∈ y, c ≠ '<') :
    appF (txtChain xmlDeclChars)
      (XmlF.elemF (("pages").toList) (txtChain y) XmlF.nilF) ≠ txtChain y := by
  intro heq
  have h1 : headTxt (appF (txtChain xmlDeclChars)
      (XmlF.elemF (("pages").toList) (txtChain y) XmlF.nilF)) = some '<' := rfl
  rw [heq] at h1
  cases y with
  | nil => simp [txtChain, headTxt] at h1
  | cons c t =>
    have hc : c = '<' := by
      have : headTxt (XmlF.txtF c (txtChain t)) = some '<' := h1
      simpa [headTxt] using this
    exact absurd hc (h c (List.mem_cons_self c t))

/-- C5 amended: sanitize is not idempotent up to parse.  For every
entity-free, tag-free input, the first sanitize wraps the (stripped)
text once; re-sanitizing escapes the previous XML declaration into
literal character data and nests the previous root element inside a
fresh root, so `sanitize(sanitize(x))` parses to a strictly different
document than `sanitize(x)`. -/
theorem c5_amended_not_idempotent (x : List Char)
    (h1 : ∀ c ∈ x, c ≠ '&' ∧ c ≠ '<')
    (h2 : occursIn (("]]>").toList) (remove_invalid_xml_chars x) = false) :
    parseDoc (clean_xml x) =
      some (XmlF.elemF (("pages").toList)
        (txtChain (remove_invalid_xml_chars x)) XmlF.nilF)
    ∧ parseDoc (clean_xml (clean_xml x)) =
      some (XmlF.elemF (("pages").toList)
        (appF (txtChain xmlDeclChars)
          (XmlF.elemF (("pages").toList)
            (txtChain (remove_invalid_xml_chars x)) XmlF.nilF))
        XmlF.nilF)
    ∧ parseDoc (clean_xml (clean_xml x)) ≠ parseDoc (clean_xml x) := by
  have hxa : ∀ c ∈ x, c ≠ '&' := fun c hc => (h1 c hc).1
  have hxl : ∀ c ∈ x, c ≠ '<' := fun c hc => (h1 c hc).2
  have hx2a : ∀ c ∈ remove_invalid_xml_chars x, c ≠ '&' :=
    fun c hc => hxa c (remove_invalid_mem x c hc)
  have hx2l : ∀ c ∈ remove_invalid_xml_chars x, c ≠ '<' :=
    fun c hc => hxl c (remove_invalid_mem x c hc)
  have hpre : preBody x = remove_invalid_xml_chars x := by
    unfold preBody
    rw [sub_hex_ncr_id x hxa, replace_quot_id x hxa, html_unescape_id x hxa]
  have hfirst : parseDoc (clean_xml x) =
      some (XmlF.elemF (("pages").toList)
        (txtChain (remove_invalid_xml_chars x)) XmlF.nilF) := by
    have h := parseDoc_clean_xml_eq x
      (by rw [hpre]; exact noTaggyAll_of_no_lt _ hx2l)
      (by rw [hpre]; exact h2)
    rw [hpre] at h
    exact h
  have ho1 : clean_xml x =
      (xmlDeclChars ++ pagesOpenTag) ++ (remove_invalid_xml_chars x ++ pagesCloseTag) := by
    show xmlDeclChars ++ pagesOpenTag ++ escape_stray_lt (escape_amp (preBody x)) ++
      pagesCloseTag = _
    rw [hpre, escape_amp_id _ hx2a, escape_stray_lt_clean_id _ hx2l]
    simp [List.append_assoc]
  have hamp_o1 : ∀ c ∈ clean_xml x, c ≠ '&' := by
    rw [ho1]
    intro c hc
    rcases List.mem_append.mp hc with h | h
    · rcases List.mem_append.mp h with h | h
      · exact (by decide : ∀ a ∈ xmlDeclChars, a ≠ '&') c h
      · exact (by decide : ∀ a ∈ pagesOpenTag, a ≠ '&') c h
    · rcases List.mem_append.mp h with h | h
      · exact hx2a c h
      · exact (by decide : ∀ a ∈ pagesCloseTag, a ≠ '&') c h
  have hval_o1 : ∀ c ∈ clean_xml x, invalidXmlChar c = false := by
    rw [ho1]
    intro c hc
    rcases List.mem_append.mp hc with h | h
    · rcases List.mem_append.mp h with h | h
      · exact (by decide : ∀ a ∈ xmlDeclChars, invalidXmlChar a = false) c h
      · exact (by decide : ∀ a ∈ pagesOpenTag, invalidXmlChar a = false) c h
    · rcases List.mem_append.mp h with h | h
      · exact remove_invalid_valid x c h
      · exact (by decide : ∀ a ∈ pagesCloseTag, invalidXmlChar a = false) c h
  have hpre_o1 : preBody (clean_xml x) = clean_xml x := by
    unfold preBody
    rw [sub_hex_ncr_id _ hamp_o1, replace_quot_id _ hamp_o1, html_unescape_id _ hamp_o1]
    unfold remove_invalid_xml_chars
    refine List.filter_eq_self.mpr ?_
    intro a ha
    simpa using hval_o1 a ha
  have hshape : clean_xml (clean_xml x) =
      xmlDeclChars ++ (pagesOpenTag ++ ('&' :: 'l' :: 't' :: ';' ::
        (xmlDeclTail ++ (pagesOpenTag ++ (remove_invalid_xml_chars x ++
          (pagesCloseTag ++ pagesCloseTag)))))) := by
    show xmlDeclChars ++ pagesOpenTag ++
      escape_stray_lt (escape_amp (preBody (clean_xml x))) ++ pagesCloseTag = _
    rw [hpre_o1, escape_amp_id _ hamp_o1, ho1, eslt_decl_open,
      escape_stray_lt_clean_append _ _ hx2l, eslt_close_tag]
    simp [List.append_assoc]
  have hsecond : parseDoc (clean_xml (clean_xml x)) =
      some (XmlF.elemF (("pages").toList)
        (appF (txtChain xmlDeclChars)
          (XmlF.elemF (("pages").toList)
            (txtChain (remove_invalid_xml_chars x)) XmlF.nilF))
        XmlF.nilF) := by
    rw [hshape, parseDoc_decl, parseGo_open_pages]
    rw [show parseGo ('&' :: 'l' :: 't' :: ';' ::
        (xmlDeclTail ++ (pagesOpenTag ++ (remove_invalid_xml_chars x ++
          (pagesCloseTag ++ pagesCloseTag))))) PMode.con
        [((("pages").toList), XmlF.nilF)] XmlF.nilF =
      parseGo (xmlDeclTail ++ (pagesOpenTag ++ (remove_invalid_xml_chars x ++
          (pagesCloseTag ++ pagesCloseTag)))) PMode.con
        [((("pages").toList), XmlF.nilF)]
        (appF XmlF.nilF (XmlF.txtF '<' XmlF.nilF)) from
      parseGo_lt_entity _ _ _ rfl]
    have hstep1 := parseGo_escUnits xmlDeclTail
      (pagesOpenTag ++ (remove_invalid_xml_chars x ++ (pagesCloseTag ++ pagesCloseTag)))
      [((("pages").toList), XmlF.nilF)] (appF XmlF.nilF (XmlF.txtF '<' XmlF.nilF))
      rfl (by decide) (by decide) rfl
    rw [show escUnits xmlDeclTail = xmlDeclTail from by decide] at hstep1
    rw [hstep1, parseGo_open_pages_inner]
    have hstep2 := parseGo_escUnits (remove_invalid_xml_chars x)
      (pagesCloseTag ++ pagesCloseTag)
      [((("pages").toList), appF (appF XmlF.nilF (XmlF.txtF '<' XmlF.nilF))
          (txtChain xmlDeclTail)), ((("pages").toList), XmlF.nilF)]
      XmlF.nilF rfl (remove_invalid_valid x) h2 rfl
    rw [escUnits_id _ (fun c hc => ⟨hx2a c hc, hx2l c hc⟩)] at hstep2
    rw [hstep2, parseGo_close_pages_inner, parseGo_close_pages]
    have hacc : appF (appF XmlF.nilF (XmlF.txtF '<' XmlF.nilF)) (txtChain xmlDeclTail) =
        txtChain xmlDeclChars := by
      rw [show xmlDeclChars = '<' :: xmlDeclTail from rfl]
      simp [appF, txtChain]
    rw [hacc]
    rw [show appF XmlF.nilF (txtChain (remove_invalid_xml_chars x)) =
      txtChain (remove_invalid_xml_chars x) from rfl]
  refine ⟨hfirst, hsecond, ?_⟩
  rw [hfirst, hsecond]
  intro h
  have h3 := Option.some.inj h
  have h4 : appF (txtChain xmlDeclChars)
      (XmlF.elemF (("pages").toList)
        (txtChain (remove_invalid_xml_chars x)) XmlF.nilF) =
      txtChain (remove_invalid_xml_chars x) := by
    injection h3 with _ hk _
  exact nested_ne_flat _ hx2l h4

/-- C5 counterexample: already for the empty raw document, re-running
sanitize changes the parsed document — the declaration is escaped into
text and the root is nested — so sanitize(sanitize(x)) does not parse
identically to sanitize(x). -/
theorem c5_counterexample :
    parseDoc (clean_xml (clean_xml ([] : List Char))) ≠
      parseDoc (clean_xml ([] : List Char)) := by decide

/-- Witness for C5's amended statement at the empty input. -/
theorem c5_witness :
    parseDoc (clean_xml ([] : List Char)) =
      some (XmlF.elemF (("pages").toList)
        (txtChain (remove_invalid_xml_chars [])) XmlF.nilF)
    ∧ parseDoc (clean_xml (clean_xml ([] : List Char))) =
      some (XmlF.elemF (("pages").toList)
        (appF (txtChain xmlDeclChars)
          (XmlF.elemF (("pages").toList)
            (txtChain (remove_invalid_xml_chars [])) XmlF.nilF))
        XmlF.nilF)
    ∧ parseDoc (clean_xml (clean_xml ([] : List Char))) ≠
        parseDoc (clean_xml ([] : List Char)) :=
  c5_amended_not_idempotent [] (by decide) (by decide)

end HotPdf
